import Mathlib

/-
Verification of the filesplitter repository (Go).

The repository contains two variants of the tool:
  * `src/unnamed/part_000` ("v1"): the full-featured variant with `-pattern`,
    `-q` (quiet) and an explicit 128KB I/O buffer, reading lines with
    `bufio.Reader.ReadSlice('\n')`;
  * `src/main.go` ("v2"): the variant without pattern/quiet, reading lines
    with `bufio.Reader.ReadString('\n')`.

Bytes are modelled as `Nat` (they stay below 256 in all concrete inputs; no
arithmetic is performed on them besides comparison with the newline byte 10).
The input file is a `List Byte`; the filesystem and console effects are
recorded explicitly in the splitter state (`createdFiles`, `wouldCreate`).
`time.Now` is modelled as an external clock `Nat → String` indexed by the
number of `createNewPart` invocations so far.
-/

abbrev Byte := Nat

/-- The resolved configuration handed to `splitFile` (v1 variant flags).
`maxBytes` models the `int64` byte threshold; `parseSize` only ever produces
nonnegative values, so it is a `Nat` here.  `pattern` models the compiled
`*regexp.Regexp` abstractly as the boolean matcher the splitter calls
(`pattern.Match`); `none` models a nil pattern. `bufSize` models the constant
`bufSize = 128 * 1024` (kept as a field so that theorems can compare runs at
different buffer sizes); `bufio.NewReaderSize` enforces a minimum buffer size
of 16, which the loop below reflects as `max bufSize 16`. -/
structure Config where
  maxLines : Nat
  maxBytes : Nat
  pattern : Option (List Byte → Bool)
  outputDir : String
  outPref : String
  fileExt : String
  padWidth : Nat
  useTS : Bool
  dryRun : Bool
  quiet : Bool
  bufSize : Nat
  clock : Nat → String

/-- The mutable state of `splitFile`:
`lineCount`, `part`, `written` are the Go locals of the same names;
`calls` counts `createNewPart` invocations (it indexes the clock);
`closed` holds the contents of already closed part files in creation order,
`cur` the content of the currently open part file (`none` models `out == nil`,
which is the permanent situation in dry-run mode);
`createdFiles` records the filenames passed to `os.Create` (the filesystem
effect), `wouldCreate` the filenames named by emitted
"[DryRun] Would create:" log messages (the console effect). -/
structure SState where
  lineCount : Nat
  part : Nat
  written : Nat
  calls : Nat
  closed : List (List Byte)
  cur : Option (List Byte)
  createdFiles : List String
  wouldCreate : List String

def initState : SState := ⟨0, 1, 0, 0, [], none, [], []⟩

/-- Go `fmt.Sprintf("%0*d", w, n)`: decimal of `n`, left-padded with zeros to
width `w`. -/
def zeroPad (w : Nat) (n : Nat) : String :=
  let s := toString n
  if s.length < w then String.mk (List.replicate (w - s.length) '0') ++ s else s

/-- Models Go `filepath.Join` for the shapes exercised here: joining under
`"."` yields the cleaned bare name, otherwise `dir/name`. -/
def joinPath (dir name : String) : String :=
  if dir = "." then name else dir ++ "/" ++ name

/-- The suffix built in `createNewPart`: zero-padded index, optionally
followed by `_` and the timestamp taken at this creation (`clock` call). -/
def mkSuffix (cfg : Config) (calls lpart : Nat) : String :=
  let base := zeroPad cfg.padWidth lpart
  if cfg.useTS then base ++ "_" ++ cfg.clock calls else base

/-- The filename computed in `createNewPart`:
`filepath.Join(outputDir, fmt.Sprintf("%s%s.%s", prefix, suffix, ext))`. -/
def mkFilename (cfg : Config) (calls lpart : Nat) : String :=
  joinPath cfg.outputDir (cfg.outPref ++ mkSuffix cfg calls lpart ++ "." ++ cfg.fileExt)

/-- v1 `createNewPart` (src/unnamed/part_000 lines 94-123).  In dry-run mode
it logs the would-be filename (suppressed by quiet) and returns *before*
resetting `written`/`lineCount` and incrementing `part`.  Otherwise it closes
the previous part (its content moves to `closed`), creates the new file,
logs, and resets the counters.  File creation is modelled as succeeding;
`main`'s handling of a failing creation is modelled separately in `mainExit`. -/
def createNewPart (cfg : Config) (s : SState) : SState :=
  let filename := mkFilename cfg s.calls s.part
  if cfg.dryRun then
    { s with calls := s.calls + 1,
             wouldCreate :=
               if cfg.quiet then s.wouldCreate else s.wouldCreate ++ [filename] }
  else
    { s with calls := s.calls + 1,
             closed := s.closed ++ s.cur.toList,
             cur := some [],
             createdFiles := s.createdFiles ++ [filename],
             written := 0, lineCount := 0, part := s.part + 1 }

/-- Models `if !dryRun { writer.Write(lineBytes) }`: append bytes to the open part. -/
def writeCur (cfg : Config) (s : SState) (bs : List Byte) : SState :=
  if cfg.dryRun then s
  else { s with cur := s.cur.map (fun c => c ++ bs) }

/-- The v1 rollover condition (src/unnamed/part_000 lines 152-154):
`(maxLines > 0 && lineCount >= maxLines) ||
 (maxSizeBytes > 0 && written+int64(len(lineBytes)) > maxSizeBytes) ||
 (pattern != nil && pattern.Match(lineBytes))`. -/
def rollCond (cfg : Config) (s : SState) (bs : List Byte) : Bool :=
  (decide (0 < cfg.maxLines) && decide (cfg.maxLines ≤ s.lineCount)) ||
  (decide (0 < cfg.maxBytes) && decide (cfg.maxBytes < s.written + bs.length)) ||
  (match cfg.pattern with
   | some p => p bs
   | none => false)

/-- One complete delimited line through the v1 loop body: possibly roll over,
write the line, bump `lineCount` and `written`. -/
def stepLine (cfg : Config) (s : SState) (bs : List Byte) : SState :=
  let s1 := if rollCond cfg s bs then createNewPart cfg s else s
  let s2 := writeCur cfg s1 bs
  { s2 with lineCount := s2.lineCount + 1, written := s2.written + bs.length }

/-- The v1 read loop (src/unnamed/part_000 lines 131-167), with
`reader.ReadSlice('\n')` inlined byte by byte.  `pending` is the data the
reader has buffered for the current `ReadSlice` call (never containing a
newline).  The three outcomes of `ReadSlice` appear as the three branches:
a byte 10 completes a line (threshold check, write, count); the buffer
filling up without a newline is `bufio.ErrBufferFull` — the chunk is written
to the *current* part and the loop continues with no threshold check and no
counter update; end of input with pending data is the `io.EOF` case — the
final fragment is written to the current part, and the loop ends. -/
def scan (cfg : Config) (s : SState) (pending : List Byte) : List Byte → SState
  | [] => if pending.isEmpty then s else writeCur cfg s pending
  | b :: rest =>
    let buf := pending ++ [b]
    if b = 10 then scan cfg (stepLine cfg s buf) [] rest
    else if buf.length = max cfg.bufSize 16 then scan cfg (writeCur cfg s buf) [] rest
    else scan cfg s buf rest

/-- v1 `splitFile`: create part 1 unconditionally, then run the read loop. -/
def splitFile (cfg : Config) (input : List Byte) : SState :=
  scan cfg (createNewPart cfg initState) [] input

/-- The contents of the output part files of a run, in part-index order
(the final flush/close makes the open part a finished file). -/
def outParts (cfg : Config) (input : List Byte) : List (List Byte) :=
  let s := splitFile cfg input
  s.closed ++ s.cur.toList

/- ------------------------------------------------------------------ -/
/- The v2 variant (src/main.go): no pattern, no quiet flag, lines read
   with `ReadString('\n')` (which accumulates across the internal buffer,
   so there is no `ErrBufferFull` case). -/

/-- v2 rollover condition (src/main.go line 129). -/
def rollCondV2 (cfg : Config) (s : SState) (bs : List Byte) : Bool :=
  (decide (0 < cfg.maxLines) && decide (cfg.maxLines ≤ s.lineCount)) ||
  (decide (0 < cfg.maxBytes) && decide (cfg.maxBytes < s.written + bs.length))

/-- v2 `createNewPart` (src/main.go lines 86-111): as v1 but with no quiet
gate on the log messages. -/
def createNewPartV2 (cfg : Config) (s : SState) : SState :=
  let filename := mkFilename cfg s.calls s.part
  if cfg.dryRun then
    { s with calls := s.calls + 1, wouldCreate := s.wouldCreate ++ [filename] }
  else
    { s with calls := s.calls + 1,
             closed := s.closed ++ s.cur.toList,
             cur := some [],
             createdFiles := s.createdFiles ++ [filename],
             written := 0, lineCount := 0, part := s.part + 1 }

/-- v2 loop body for one delimited line. -/
def stepLineV2 (cfg : Config) (s : SState) (bs : List Byte) : SState :=
  let s1 := if rollCondV2 cfg s bs then createNewPartV2 cfg s else s
  let s2 := writeCur cfg s1 bs
  { s2 with lineCount := s2.lineCount + 1, written := s2.written + bs.length }

/-- The v2 read loop (src/main.go lines 119-142).  `ReadString` returns the
pending fragment together with `io.EOF` when the input ends without a final
newline; the code checks `err == io.EOF` first and breaks *without writing
the returned fragment*, so the fragment is dropped. -/
def scanV2 (cfg : Config) (s : SState) (pending : List Byte) : List Byte → SState
  | [] => s
  | b :: rest =>
    if b = 10 then scanV2 cfg (stepLineV2 cfg s (pending ++ [b])) [] rest
    else scanV2 cfg s (pending ++ [b]) rest

/-- v2 `splitFile`. -/
def splitFileV2 (cfg : Config) (input : List Byte) : SState :=
  scanV2 cfg (createNewPartV2 cfg initState) [] input

/-- Output part contents of a v2 run, in part-index order. -/
def outPartsV2 (cfg : Config) (input : List Byte) : List (List Byte) :=
  let s := splitFileV2 cfg input
  s.closed ++ s.cur.toList

/- ------------------------------------------------------------------ -/
/- The size parser (identical in both variants). -/

/-- Go `unicode.IsSpace`, i.e. the Unicode White_Space property, which is
exactly what `strings.TrimSpace` trims: U+0009..U+000D, space, U+0085 (NEL),
U+00A0 (NBSP), U+1680, U+2000..U+200A, U+2028, U+2029, U+202F, U+205F and
U+3000. -/
def isGoSpace (c : Char) : Bool :=
  (9 ≤ c.toNat && c.toNat ≤ 13) || c == ' ' ||
  c.toNat == 0x85 || c.toNat == 0xa0 || c.toNat == 0x1680 ||
  (0x2000 ≤ c.toNat && c.toNat ≤ 0x200a) ||
  c.toNat == 0x2028 || c.toNat == 0x2029 || c.toNat == 0x202f ||
  c.toNat == 0x205f || c.toNat == 0x3000

/-- Go `strings.TrimSpace`: drop `unicode.IsSpace` runes from both ends. -/
def trimSpace (cs : List Char) : List Char :=
  ((cs.dropWhile isGoSpace).reverse.dropWhile isGoSpace).reverse

/-- One or more ASCII digits, i.e. the regexp atom `\d+` (Go's `\d` is
ASCII-only). -/
def isDigits (cs : List Char) : Bool :=
  !cs.isEmpty && cs.all Char.isDigit

/-- Numeric value of a digit string. -/
def digitsToNat (cs : List Char) : Nat :=
  cs.foldl (fun a c => a * 10 + (c.toNat - 48)) 0

/-- Go `strings.ToUpper`.  `Char.toUpper` only maps ASCII letters where Go
upper-cases all of Unicode; this is extensionally faithful for `parseSize`:
no rune outside ASCII has `B`, `K`, `M`, `G` or a digit as its Go uppercase,
so on every input containing such a rune both the program's regexp match and
this model's grammar fail in the same way, and on all other inputs the two
upper-casings agree. -/
def toUpperL (cs : List Char) : List Char :=
  cs.map Char.toUpper

/-- Does `cs` end with `suf`? -/
def endsWithL (cs suf : List Char) : Bool :=
  decide (suf.length ≤ cs.length) && (cs.drop (cs.length - suf.length) == suf)

/-- Split off the trailing unit suffix, mirroring the anchored alternation
`(KB|MB|GB|B)$` of the regexp in `parseSize` (the numeric group `\d+(\.\d+)?`
cannot consume the letters, so the alternation order is immaterial): returns
the part before the unit and the unit multiplier. -/
def unitSplit (cs : List Char) : Option (List Char × Nat) :=
  if endsWithL cs ['K', 'B'] then some (cs.take (cs.length - 2), 1024)
  else if endsWithL cs ['M', 'B'] then some (cs.take (cs.length - 2), 1024 * 1024)
  else if endsWithL cs ['G', 'B'] then some (cs.take (cs.length - 2), 1024 * 1024 * 1024)
  else if endsWithL cs ['B'] then some (cs.take (cs.length - 1), 1)
  else none

/-- The regexp group `(\d+(\.\d+)?)`, recognised exactly (a digit string,
optionally a dot and a further digit string), together with the exact
rational value of the literal as a scaled pair (numerator, denominator
`10^k`).  The recognition is precisely the program's regexp; the *value* is
what the program obtains through `strconv.ParseFloat` (binary64) — the two
agree exactly on the `Float64Exact` domain defined below, and every theorem
about produced values is restricted to that domain. -/
def parseNum? (cs : List Char) : Option (Nat × Nat) :=
  match cs.splitOn '.' with
  | [a] => if isDigits a then some (digitsToNat a, 1) else none
  | [a, b] =>
    if isDigits a && isDigits b then
      some (digitsToNat a * 10 ^ b.length + digitsToNat b, 10 ^ b.length)
    else none
  | _ => none

/-- Go `parseSize` (src/unnamed/part_000 lines 181-209, src/main.go lines
154-182): empty string is 0 with no error; otherwise
`strings.TrimSpace(strings.ToUpper(sizeStr))` must match
`^(\d+(\.\d+)?)(KB|MB|GB|B)$` or the parse fails, and on a match the result
is `int64(num * mult)` with `num` the group's `strconv.ParseFloat` value.
Here the value is computed with exact rational arithmetic and exact
truncation toward zero (`Nat` division of the scaled product, the value
being nonnegative).  This coincides with the program's float64/int64
pipeline precisely on the `Float64Exact` domain (see there); only facts
that never touch the arithmetic — the empty string, and grammar failures,
which Go reports before calling `ParseFloat` — are asserted outside it. -/
def parseSize (s : String) : Except String Nat :=
  if s = "" then .ok 0
  else
    let t := trimSpace (toUpperL s.toList)
    match unitSplit t with
    | none => .error "invalid size format"
    | some (numCs, mult) =>
      match parseNum? numCs with
      | none => .error "invalid size format"
      | some (num, den) => .ok (num * mult / den)

/-- The size-string format as the spec and claim C8 word it ("a string of
digits (optionally with a decimal fraction) followed case-insensitively by
B, KB, MB, or GB"; "any other string is a parse failure"): the same grammar
and value as `parseSize`, but with no whitespace trimming. -/
def specSize (s : String) : Except String Nat :=
  if s = "" then .ok 0
  else
    let t := toUpperL s.toList
    match unitSplit t with
    | none => .error "invalid size format"
    | some (numCs, mult) =>
      match parseNum? numCs with
      | none => .error "invalid size format"
      | some (num, den) => .ok (num * mult / den)

/-- The domain on which Go's arithmetic pipeline is exact, so that the
rational model provably computes the program's result: the literal's value
`num / 10 ^ k` is exactly representable as an IEEE-754 binary64 number
(`num % 5 ^ k = 0` and `num / 5 ^ k ≤ 2 ^ 53` make it `m * 2 ^ (-k)` with an
integer significand `m ≤ 2 ^ 53`, and `k ≤ 1074` keeps the exponent in
range), and the exact product with the unit factor stays below `2 ^ 63`.
Then `strconv.ParseFloat`, being correctly rounded, parses the literal with
no rounding; multiplying the float64 by `mult ∈ {1, 2^10, 2^20, 2^30}` only
shifts the exponent, which is exact far below the float64 overflow
threshold; and converting a nonnegative float64 below `2 ^ 63` to `int64`
truncates toward zero exactly — so the program computes
`num * mult / 10 ^ k`.  Outside this domain (literals that binary64 rounds,
such as `0.99999999999999999`, or products reaching `2 ^ 63`, where Go's
float-to-int conversion is implementation-defined) the model asserts
nothing. -/
def Float64Exact (num k mult : Nat) : Prop :=
  num % 5 ^ k = 0 ∧ num / 5 ^ k ≤ 2 ^ 53 ∧ k ≤ 1074 ∧ num * mult / 10 ^ k < 2 ^ 63

instance (num k mult : Nat) : Decidable (Float64Exact num k mult) := by
  unfold Float64Exact
  infer_instance

/-- Did the parser fail? -/
def isErr : Except String Nat → Bool
  | .error _ => true
  | .ok _ => false

/- ------------------------------------------------------------------ -/
/- Exit behaviour of v1 `main` (src/unnamed/part_000 lines 34-84). -/

/-- The flag values that influence the exit code. -/
structure Flags where
  inputFile : String
  linesPerFile : Nat
  sizePerFile : String
  patternStr : String

/-- Outcomes of the external calls `main` and `splitFile` make:
does `os.Open` of the input succeed, does `regexp.Compile` of the pattern
succeed, do the `os.Create` calls for part files succeed. -/
structure Env where
  openOk : Bool
  regexOk : Bool
  createOk : Bool

/-- The byte threshold `main` resolves: `parseSize` failure is logged as a
warning and degraded to 0 (no limit), not an exit. -/
def resolveMaxBytes (s : String) : Nat :=
  match parseSize s with
  | .ok v => v
  | .error _ => 0

/-- The process exit code of the v1 `main`.  `os.Exit(1)` is reached exactly
on: empty `-in` flag; `os.Open` failure; nonempty `-pattern` whose
`regexp.Compile` fails.  A `parseSize` error only warns (see
`resolveMaxBytes`).  `splitFile` handles a failing `os.Create` by logging
the error and returning (lines 125-129 and 155-159), and `main` falls
through to a normal exit afterwards, so `env.createOk` does not influence
the exit code. -/
def mainExit (fl : Flags) (env : Env) : Nat :=
  if fl.inputFile = "" then 1
  else if env.openOk = false then 1
  else if fl.patternStr ≠ "" ∧ env.regexOk = false then 1
  else 0

/- ------------------------------------------------------------------ -/
/- Concrete configurations used by witnesses and counterexamples. -/

/-- The resolved configuration from the default flag values
(`-prefix part -outdir . -ext txt -pad 3`), with the source's
`bufSize = 128 * 1024`. -/
def cfgDefault : Config :=
  { maxLines := 0, maxBytes := 0, pattern := none, outputDir := ".",
    outPref := "part", fileExt := "txt", padWidth := 3, useTS := false,
    dryRun := false, quiet := false, bufSize := 128 * 1024,
    clock := fun _ => "" }

/-- A concrete matcher: does the line start with the byte `E` (69)?
(Stands in for a compiled regexp such as `^E`.) -/
def startsWithE (bs : List Byte) : Bool :=
  bs.take 1 == [69]

/-- Lines-only configuration with `-lines 3` (the spec's end-to-end example). -/
def cfg3 : Config := { cfgDefault with maxLines := 3 }

/-- Same configuration in dry-run mode. -/
def cfgDry3 : Config := { cfgDefault with maxLines := 3, dryRun := true }

/-- Dry-run configuration with `-lines 2`. -/
def cfgDry2 : Config := { cfgDefault with maxLines := 2, dryRun := true }

/-- Pattern-splitting configuration (matcher: line starts with `E`). -/
def cfgPatE : Config := { cfgDefault with pattern := some startsWithE }

/-- Size-splitting configuration with a 5-byte threshold. -/
def cfgSize5 : Config := { cfgDefault with maxBytes := 5 }

/-- Lines-splitting configuration with threshold 1 and a 16-byte I/O buffer. -/
def cfgBuf16 : Config := { cfgDefault with maxLines := 1, bufSize := 16 }

/-- Ten newline-terminated one-character lines (`"a\n"` times ten). -/
def inp10 : List Byte :=
  [97, 10, 97, 10, 97, 10, 97, 10, 97, 10, 97, 10, 97, 10, 97, 10, 97, 10, 97, 10]

/-- Four newline-terminated lines. -/
def inp4 : List Byte := [97, 10, 97, 10, 97, 10, 97, 10]

/-- Three newline-terminated lines. -/
def inp3 : List Byte := [97, 10, 97, 10, 97, 10]

/-- Input whose very first line (`"E\n"`) matches `startsWithE`. -/
def inpPatE : List Byte := [69, 10, 97, 10]

/-- Input `"abc\nxy"`: a 4-byte line followed by a 2-byte final fragment
without a trailing newline. -/
def inpSize : List Byte := [97, 98, 99, 10, 120, 121]

/-- Input `"ab\n"` followed by an 18-`a` line: the second line (19 bytes) is
longer than a 16-byte I/O buffer but shorter than a 64-byte one. -/
def inpLong : List Byte := [97, 98, 10] ++ List.replicate 18 97 ++ [10]

/-- A complete line as delivered by one successful `ReadSlice('\n')` call on
a buffer of size `n`: nonempty, ends in the (single) newline, and fits the
buffer. -/
def WFLine (n : Nat) (l : List Byte) : Prop :=
  l.count 10 = 1 ∧ l.getLast? = some 10 ∧ l.length ≤ n

instance (n : Nat) (l : List Byte) : Decidable (WFLine n l) := by
  unfold WFLine
  infer_instance

/-- Loop invariant for a lines-only configuration: the open part's newline
count equals `lineCount`, which never exceeds `maxLines`, and every closed
part holds exactly `maxLines` newlines. -/
def LinesInv (cfg : Config) (s : SState) : Prop :=
  ∃ c, s.cur = some c ∧ s.lineCount = c.count 10 ∧ s.lineCount ≤ cfg.maxLines ∧
    ∀ p ∈ s.closed, p.count 10 = cfg.maxLines

/-- Loop invariant for a bytes-only configuration over the input line list
`LS`: the byte counter equals the open part's length, and every part (closed
or open) either fits the threshold or consists of exactly one input line. -/
def SizeInv (cfg : Config) (LS : List (List Byte)) (s : SState) : Prop :=
  ∃ c, s.cur = some c ∧ s.written = c.length ∧
    (c.length ≤ cfg.maxBytes ∨ c ∈ LS) ∧
    ∀ p ∈ s.closed, p.length ≤ cfg.maxBytes ∨ p ∈ LS

/-- The line `l` begins some part of state `s`: one of the part files
(closed, or the currently open one) has content `l ++ t`. -/
def BeginsPart (s : SState) (l : List Byte) : Prop :=
  ∃ q ∈ s.closed ++ s.cur.toList, ∃ t, q = l ++ t

/-- Non-dry-run bookkeeping of part indices: the next index is one past the
number of creations so far, and the created filenames are exactly those of
indices 1, 2, 3, … (clock call `i` belonging to index `i + 1`). -/
def IndexInv (cfg : Config) (s : SState) : Prop :=
  s.part = s.calls + 1 ∧
    s.createdFiles = (List.range s.calls).map (fun i => mkFilename cfg i (i + 1))

/- ------------------------------------------------------------------ -/
/- Basic lemmas about the state operations. -/

lemma writeCur_nil (cfg : Config) (s : SState) : writeCur cfg s [] = s := by
  cases s with
  | mk lc pt wr ca cl cu cf wc =>
    unfold writeCur
    split
    · rfl
    · cases cu <;> simp

lemma writeCur_writeCur (cfg : Config) (s : SState) (a b : List Byte) :
    writeCur cfg (writeCur cfg s a) b = writeCur cfg s (a ++ b) := by
  cases hd : cfg.dryRun
  · cases s with
    | mk lc pt wr ca cl cu cf wc => cases cu <;> simp [writeCur, hd]
  · simp [writeCur, hd]

/-- Unfolding equation of `scan` at the end of input. -/
lemma scan_nil (cfg : Config) (s : SState) (pending : List Byte) :
    scan cfg s pending [] = if pending.isEmpty then s else writeCur cfg s pending := by
  simp [scan]

/-- Unfolding equation of `scan` at one more input byte. -/
lemma scan_cons (cfg : Config) (s : SState) (pending : List Byte) (b : Byte)
    (rest : List Byte) :
    scan cfg s pending (b :: rest) =
      if b = 10 then scan cfg (stepLine cfg s (pending ++ [b])) [] rest
      else if (pending ++ [b]).length = max cfg.bufSize 16 then
        scan cfg (writeCur cfg s (pending ++ [b])) [] rest
      else scan cfg s (pending ++ [b]) rest := by
  rfl

/-- With the byte threshold and pattern unset, the rollover condition is
just the line-count comparison. -/
lemma rollCond_lines (cfg : Config) (hB : cfg.maxBytes = 0) (hP : cfg.pattern = none)
    (s : SState) (bs : List Byte) :
    rollCond cfg s bs
      = (decide (0 < cfg.maxLines) && decide (cfg.maxLines ≤ s.lineCount)) := by
  simp [rollCond, hB, hP]

lemma writeCur_linesInv (cfg : Config) (s : SState) (bs : List Byte)
    (hbs : bs.count 10 = 0) (h : LinesInv cfg s) :
    LinesInv cfg (writeCur cfg s bs) := by
  obtain ⟨c, hc, h1, h2, h3⟩ := h
  unfold writeCur
  split
  · exact ⟨c, hc, h1, h2, h3⟩
  · refine ⟨c ++ bs, by simp [hc], ?_, h2, h3⟩
    simp [List.count_append, hbs, h1]

lemma stepLine_linesInv (cfg : Config) (hL : 0 < cfg.maxLines) (hB : cfg.maxBytes = 0)
    (hP : cfg.pattern = none) (hD : cfg.dryRun = false)
    (s : SState) (buf : List Byte) (hbuf : buf.count 10 = 1)
    (h : LinesInv cfg s) : LinesInv cfg (stepLine cfg s buf) := by
  obtain ⟨c, hc, h1, h2, h3⟩ := h
  unfold stepLine
  rw [rollCond_lines cfg hB hP]
  by_cases hroll : cfg.maxLines ≤ s.lineCount
  · have heq : s.lineCount = cfg.maxLines := Nat.le_antisymm h2 hroll
    have hcond : (decide (0 < cfg.maxLines) && decide (cfg.maxLines ≤ s.lineCount)) = true := by
      simp [hL, hroll]
    rw [hcond]
    simp only [if_true]
    refine ⟨buf, ?_, ?_, ?_, ?_⟩
    · simp [writeCur, createNewPart, hD]
    · simp [writeCur, createNewPart, hD, hbuf]
    · have : (writeCur cfg (createNewPart cfg s) buf).lineCount = 0 := by
        simp [writeCur, createNewPart, hD]
      simp only [this]
      exact hL
    · intro p hp
      simp [writeCur, createNewPart, hD, hc] at hp
      rcases hp with hp | hp
      · exact h3 p hp
      · subst hp; rw [← h1, heq]
  · have hcond : (decide (0 < cfg.maxLines) && decide (cfg.maxLines ≤ s.lineCount)) = false := by
      simp [hroll]
    rw [hcond]
    simp only [Bool.false_eq_true, if_false]
    refine ⟨c ++ buf, ?_, ?_, ?_, ?_⟩
    · simp [writeCur, hD, hc]
    · simp [writeCur, hD, List.count_append, hbuf, h1]
    · have : (writeCur cfg s buf).lineCount = s.lineCount := by
        simp [writeCur, hD]
      simp only [this]
      exact Nat.succ_le_of_lt (Nat.lt_of_not_le hroll)
    · intro p hp
      simp [writeCur, hD] at hp
      exact h3 p hp

lemma scan_linesInv (cfg : Config) (hL : 0 < cfg.maxLines) (hB : cfg.maxBytes = 0)
    (hP : cfg.pattern = none) (hD : cfg.dryRun = false) :
    ∀ (input pending : List Byte) (s : SState),
      LinesInv cfg s → pending.count 10 = 0 →
      LinesInv cfg (scan cfg s pending input) := by
  intro input
  induction input with
  | nil =>
    intro pending s h hp
    unfold scan
    split
    · exact h
    · exact writeCur_linesInv cfg s pending hp h
  | cons b rest ih =>
    intro pending s h hp
    rw [scan_cons]
    by_cases hb : b = 10
    · rw [if_pos hb]
      subst hb
      refine ih [] _ ?_ rfl
      exact stepLine_linesInv cfg hL hB hP hD s _ (by simp [List.count_append, hp]) h
    · rw [if_neg hb]
      have hbuf : (pending ++ [b]).count 10 = 0 := by
        simp [List.count_append, hp, List.count_cons, hb]
      by_cases hlen : (pending ++ [b]).length = max cfg.bufSize 16
      · rw [if_pos hlen]
        exact ih [] _ (writeCur_linesInv cfg s _ hbuf h) rfl
      · rw [if_neg hlen]
        exact ih _ s h hbuf

/-- C6: with a positive line threshold and no other triggers, every part
except possibly the last holds exactly `maxLines` lines (newlines). -/
theorem C6_lines_per_part (cfg : Config) (input : List Byte) (hL : 0 < cfg.maxLines)
    (hB : cfg.maxBytes = 0) (hP : cfg.pattern = none) (hD : cfg.dryRun = false) :
    ∀ p ∈ (outParts cfg input).dropLast, p.count 10 = cfg.maxLines := by
  have hinit : LinesInv cfg (createNewPart cfg initState) := by
    refine ⟨[], ?_, ?_, ?_, ?_⟩ <;> simp [createNewPart, initState, hD]
  have hfin := scan_linesInv cfg hL hB hP hD input [] (createNewPart cfg initState) hinit rfl
  obtain ⟨c, hc, _h1, _h2, h3⟩ := hfin
  intro p hp
  have houtp : outParts cfg input
      = (scan cfg (createNewPart cfg initState) [] input).closed
        ++ ((scan cfg (createNewPart cfg initState) [] input).cur).toList := rfl
  rw [houtp, hc] at hp
  simp only [Option.toList_some, List.dropLast_concat] at hp
  exact h3 p hp


/-- Witness for C6 at the spec's end-to-end example: ten one-character lines
with `-lines 3` yield four parts of 3, 3, 3 and 1 lines. -/
theorem C6_lines_per_part_witness :
    (0 < cfg3.maxLines ∧ cfg3.maxBytes = 0 ∧ cfg3.pattern = none ∧ cfg3.dryRun = false) ∧
    (∀ p ∈ (outParts cfg3 inp10).dropLast, p.count 10 = cfg3.maxLines) ∧
    (outParts cfg3 inp10).map (fun p => p.count 10) = [3, 3, 3, 1] ∧
    (outParts cfg3 inp10).length = 4 :=
  ⟨⟨by decide, rfl, rfl, rfl⟩,
   C6_lines_per_part cfg3 inp10 (by decide) rfl rfl rfl,
   by decide, by decide⟩

/-- C10: for an empty input in non-dry-run mode exactly one output file is
created, named with part index 1 (clock call 0), and its content is empty;
the file is created before any read happens. -/
theorem C10_empty_input (cfg : Config) (hD : cfg.dryRun = false) :
    outParts cfg [] = [[]] ∧
    (splitFile cfg []).createdFiles = [mkFilename cfg 0 1] := by
  have hout : outParts cfg []
      = (splitFile cfg []).closed ++ ((splitFile cfg []).cur).toList := rfl
  have hsf : splitFile cfg [] = createNewPart cfg initState := by
    show scan cfg (createNewPart cfg initState) [] [] = _
    rw [scan_nil]
    rfl
  constructor
  · rw [hout, hsf]
    simp [createNewPart, initState, hD]
  · rw [hsf]
    simp [createNewPart, initState, hD]

/-- Witness for C10 at the default configuration. -/
theorem C10_empty_input_witness :
    cfgDefault.dryRun = false ∧
    (outParts cfgDefault [] = [[]] ∧
      (splitFile cfgDefault []).createdFiles = [mkFilename cfgDefault 0 1]) :=
  ⟨rfl, C10_empty_input cfgDefault rfl⟩

/-- C1 (bug in src/main.go): on the input `"ab"` with no trailing newline the
v2 splitter returns from its loop on `io.EOF` without writing the fragment
`ReadString` handed back, so its single created part is empty and the parts
do not concatenate back to the input; the v1 splitter (src/unnamed/part_000)
writes the fragment and does round-trip. -/
theorem C1_v2_drops_final_fragment :
    outPartsV2 cfgDefault [97, 98] = [[]] ∧
    (outPartsV2 cfgDefault [97, 98]).flatten ≠ [97, 98] ∧
    (outParts cfgDefault [97, 98]).flatten = [97, 98] :=
  ⟨by decide, by decide, by decide⟩

/-- C2 (bug in dry-run `createNewPart`): with `-lines 3 -dry` on four lines,
the dry run emits two "would create" messages that both name part001 (the
early return skips the part-index increment and the counter reset), while
the real run creates part001 and part002; the dry run does create no files. -/
theorem C2_dry_run_names_mismatch :
    (splitFile cfgDry3 inp4).createdFiles = [] ∧
    outParts cfgDry3 inp4 = [] ∧
    (splitFile cfgDry3 inp4).wouldCreate = ["part001.txt", "part001.txt"] ∧
    (splitFile cfg3 inp4).createdFiles = ["part001.txt", "part002.txt"] :=
  ⟨by decide, by decide, by decide, by decide⟩

/-- C9 (same bug): in dry-run mode the part index never increments and the
counters are never reset, so both emitted filenames carry index 1 and the
line count keeps growing past the threshold. -/
theorem C9_dry_run_index_never_increments :
    (splitFile cfgDry2 inp3).wouldCreate = ["part001.txt", "part001.txt"] ∧
    (splitFile cfgDry2 inp3).part = 1 ∧
    (splitFile cfgDry2 inp3).lineCount = 3 :=
  ⟨by decide, by decide, by decide⟩

/-- C4 amended: the v1 process exits 1 exactly on a missing input path, an
input file that cannot be opened, or a nonempty pattern that fails to
compile.  A failing part-file creation is logged inside `splitFile`, which
returns normally, and `main` falls through to exit 0; a size-parse failure
only degrades the threshold (see `resolveMaxBytes`). -/
theorem C4_exit_code (fl : Flags) (env : Env) :
    mainExit fl env = 1 ↔
      (fl.inputFile = "" ∨ env.openOk = false ∨
        (fl.patternStr ≠ "" ∧ env.regexOk = false)) := by
  unfold mainExit
  split_ifs with h1 h2 h3 <;> simp_all

/-- C4 counterexample: a run whose part-file creation fails (and nothing
else is wrong) exits 0, not 1 as the claim states. -/
theorem C4_counterexample :
    (Env.mk true true false).createOk = false ∧
    mainExit (Flags.mk "data.txt" 0 "" "") (Env.mk true true false) = 0 :=
  ⟨rfl, rfl⟩

/-- Unfolding equation of `parseSize` when no unit suffix is found. -/
lemma parseSize_eq_badUnit (s : String) (hne : s ≠ "")
    (hu : unitSplit (trimSpace (toUpperL s.toList)) = none) :
    parseSize s = Except.error "invalid size format" := by
  have hu' : unitSplit (trimSpace (toUpperL s.data)) = none := hu
  simp [parseSize, hne, hu']

/-- Unfolding equation of `parseSize` on a full grammar match. -/
lemma parseSize_eq_ok (s : String) (numCs : List Char) (mult num den : Nat)
    (hne : s ≠ "")
    (hu : unitSplit (trimSpace (toUpperL s.toList)) = some (numCs, mult))
    (hn : parseNum? numCs = some (num, den)) :
    parseSize s = Except.ok (num * mult / den) := by
  have hu' : unitSplit (trimSpace (toUpperL s.data)) = some (numCs, mult) := hu
  simp [parseSize, hne, hu', hn]

/-- Unfolding equation of `parseSize` when the part before the unit is not a
numeric literal. -/
lemma parseSize_eq_badNum (s : String) (numCs : List Char) (mult : Nat)
    (hne : s ≠ "")
    (hu : unitSplit (trimSpace (toUpperL s.toList)) = some (numCs, mult))
    (hn : parseNum? numCs = none) :
    parseSize s = Except.error "invalid size format" := by
  have hu' : unitSplit (trimSpace (toUpperL s.data)) = some (numCs, mult) := hu
  simp [parseSize, hne, hu', hn]

/-- C8 amended: the empty string parses to 0 with no error; a nonempty
string whose upper-cased, whitespace-trimmed form fails the
digits-plus-unit grammar (no unit suffix, or a numeric part that is not
`digits(.digits)?`) is a parse failure — Go reports these before touching
any arithmetic; and on a grammar match whose numeric value lies in the
`Float64Exact` domain (exactly binary64-representable, product below
`2 ^ 63` — which holds for all the spec's examples) the result is the
number times the unit multiplier truncated toward zero. -/
theorem C8_parse_size :
    parseSize "" = Except.ok 0 ∧
    (∀ s : String, s ≠ "" → unitSplit (trimSpace (toUpperL s.toList)) = none →
      isErr (parseSize s) = true) ∧
    (∀ (s : String) (numCs : List Char) (mult num k : Nat), s ≠ "" →
      unitSplit (trimSpace (toUpperL s.toList)) = some (numCs, mult) →
      parseNum? numCs = some (num, 10 ^ k) →
      Float64Exact num k mult →
      parseSize s = Except.ok (num * mult / 10 ^ k)) ∧
    (∀ (s : String) (numCs : List Char) (mult : Nat), s ≠ "" →
      unitSplit (trimSpace (toUpperL s.toList)) = some (numCs, mult) →
      parseNum? numCs = none →
      isErr (parseSize s) = true) := by
  refine ⟨rfl, ?_, ?_, ?_⟩
  · intro s hne hu
    rw [parseSize_eq_badUnit s hne hu]
    rfl
  · intro s numCs mult num k hne hu hn _hexact
    exact parseSize_eq_ok s numCs mult num (10 ^ k) hne hu hn
  · intro s numCs mult hne hu hn
    rw [parseSize_eq_badNum s numCs mult hne hu hn]
    rfl

/-- Witness for C8: the whitespace-padded `" 100MB "` parses through the
value clause, `"100XB"` fails through the bad-number clause, and the spec's
concrete examples evaluate as claimed. -/
theorem C8_parse_size_witness :
    (" 100MB " ≠ "" ∧
      unitSplit (trimSpace (toUpperL " 100MB ".toList))
        = some (['1', '0', '0'], 1024 * 1024) ∧
      parseNum? ['1', '0', '0'] = some (100, 10 ^ 0) ∧
      Float64Exact 100 0 (1024 * 1024)) ∧
    parseSize " 100MB " = Except.ok (100 * (1024 * 1024) / 10 ^ 0) ∧
    isErr (parseSize "100XB") = true ∧
    parseSize "" = Except.ok 0 ∧
    parseSize "100MB" = Except.ok 104857600 ∧
    parseSize "500KB" = Except.ok 512000 ∧
    parseSize "100XB" = Except.error "invalid size format" :=
  ⟨⟨by decide, by decide, by decide, by decide⟩,
   C8_parse_size.2.2.1 " 100MB " ['1', '0', '0'] (1024 * 1024) 100 0 (by decide)
     (by decide) (by decide) (by decide),
   C8_parse_size.2.2.2 "100XB" ['1', '0', '0', 'X'] 1 (by decide) (by decide)
     (by decide),
   rfl, rfl, rfl, rfl⟩

/-- C8 counterexample to the claim as stated: `" 100MB"` is not of the
digits-plus-unit shape the claim allows (so per the claim it should be a
parse failure), yet `parseSize` trims the blank and accepts it. -/
theorem C8_counterexample :
    parseSize " 100MB" = Except.ok 104857600 ∧
    specSize " 100MB" = Except.error "invalid size format" :=
  ⟨rfl, rfl⟩

/-- A well-formed line splits as a newline-free body plus the final newline. -/
lemma WFLine.decomp {n : Nat} {l : List Byte} (h : WFLine n l) :
    ∃ body, l = body ++ [10] ∧ body.count 10 = 0 ∧ body.length + 1 ≤ n := by
  obtain ⟨h1, h2, h3⟩ := h
  rcases List.eq_nil_or_concat l with rfl | ⟨body, a, rfl⟩
  · simp at h2
  · simp only [List.concat_eq_append] at h1 h2 h3 ⊢
    have ha : a = 10 := by simpa using h2
    subst ha
    refine ⟨body, rfl, ?_, ?_⟩
    · rw [List.count_append] at h1
      simpa using h1
    · simpa using h3

/-- A complete line is consumed by `scan` as a single `stepLine`, no matter
how it is split between the pending buffer and the input, provided it fits
the buffer. -/
lemma scan_body (cfg : Config) :
    ∀ (body pending : List Byte) (s : SState) (rest : List Byte),
      (pending ++ body).length + 1 ≤ max cfg.bufSize 16 →
      body.count 10 = 0 →
      scan cfg s pending (body ++ 10 :: rest)
        = scan cfg (stepLine cfg s (pending ++ body ++ [10])) [] rest := by
  intro body
  induction body with
  | nil =>
    intro pending s rest _ _
    simp only [List.nil_append]
    rw [scan_cons, if_pos rfl]
    simp
  | cons b body ih =>
    intro pending s rest hlen hcount
    have hb : ¬ b = 10 := by
      intro hb
      subst hb
      rw [List.count_cons] at hcount
      simp at hcount
    have hbody : body.count 10 = 0 := by
      rw [List.count_cons] at hcount
      omega
    have hlentot : pending.length + body.length + 2 ≤ max cfg.bufSize 16 := by
      have h' := hlen
      simp only [List.length_append, List.length_cons] at h'
      omega
    have hlen2 : ¬ (pending ++ [b]).length = max cfg.bufSize 16 := by
      simp only [List.length_append, List.length_cons, List.length_nil]
      omega
    rw [show (b :: body) ++ 10 :: rest = b :: (body ++ 10 :: rest) by simp]
    rw [scan_cons, if_neg hb, if_neg hlen2]
    rw [ih (pending ++ [b]) s rest
        (by simp only [List.length_append, List.length_cons, List.length_nil]; omega)
        hbody]
    have harg : pending ++ [b] ++ body ++ [10] = pending ++ (b :: body) ++ [10] := by
      simp
    rw [harg]

/-- A well-formed line at the head of the input is one `stepLine`. -/
lemma scan_line (cfg : Config) (s : SState) (l rest : List Byte)
    (hl : WFLine (max cfg.bufSize 16) l) :
    scan cfg s [] (l ++ rest) = scan cfg (stepLine cfg s l) [] rest := by
  obtain ⟨body, rfl, hc, hlen⟩ := WFLine.decomp hl
  have h := scan_body cfg body [] s rest (by simpa using hlen) hc
  simpa using h

/-- Newline-free input only ever appends to the open part (in as many chunks
as the buffer dictates), with no effect on the counters. -/
lemma scan_no_newline (cfg : Config) :
    ∀ (frag pending : List Byte) (s : SState),
      (pending ++ frag).count 10 = 0 →
      scan cfg s pending frag = writeCur cfg s (pending ++ frag) := by
  intro frag
  induction frag with
  | nil =>
    intro pending s _
    rw [scan_nil, List.append_nil]
    by_cases hp : pending.isEmpty
    · rw [if_pos hp]
      have hpe : pending = [] := by simpa using hp
      rw [hpe, writeCur_nil]
    · rw [if_neg hp]
  | cons b frag ih =>
    intro pending s h
    have hb : ¬ b = 10 := by
      intro hb
      subst hb
      rw [List.count_append, List.count_cons] at h
      simp at h
    have hfr : frag.count 10 = 0 := by
      rw [List.count_append, List.count_cons] at h
      omega
    have hsub : ((pending ++ [b]) ++ frag).count 10 = 0 := by
      rw [List.count_append, List.count_cons] at h
      rw [List.count_append, List.count_append]
      simp only [List.count_cons, List.count_nil] at h ⊢
      omega
    rw [scan_cons, if_neg hb]
    by_cases hlen : (pending ++ [b]).length = max cfg.bufSize 16
    · rw [if_pos hlen]
      rw [ih [] (writeCur cfg s (pending ++ [b])) (by simpa using hfr)]
      rw [writeCur_writeCur]
      have harg : pending ++ [b] ++ ([] ++ frag) = pending ++ b :: frag := by simp
      rw [harg]
    · rw [if_neg hlen]
      rw [ih (pending ++ [b]) s hsub]
      have harg : pending ++ [b] ++ frag = pending ++ b :: frag := by simp
      rw [harg]

/-- The full reduction: input made of well-formed lines followed by a
newline-free fragment is processed as the line-level fold followed by one
final write of the fragment. -/
lemma scan_lines_frag (cfg : Config) :
    ∀ (ls : List (List Byte)) (frag : List Byte) (s : SState),
      (∀ l ∈ ls, WFLine (max cfg.bufSize 16) l) →
      frag.count 10 = 0 →
      scan cfg s [] (ls.flatten ++ frag)
        = writeCur cfg (ls.foldl (stepLine cfg) s) frag := by
  intro ls
  induction ls with
  | nil =>
    intro frag s _ hf
    simpa using scan_no_newline cfg frag [] s (by simpa using hf)
  | cons l ls ih =>
    intro frag s hwf hf
    rw [show (l :: ls).flatten ++ frag = l ++ (ls.flatten ++ frag) by simp]
    rw [scan_line cfg s l _ (hwf l (by simp))]
    rw [List.foldl_cons]
    exact ih frag _ (fun x hx => hwf x (by simp [hx])) hf

/-- Reduction at the level of `splitFile`. -/
lemma splitFile_lines_frag (cfg : Config) (ls : List (List Byte)) (frag : List Byte)
    (hwf : ∀ l ∈ ls, WFLine (max cfg.bufSize 16) l) (hf : frag.count 10 = 0) :
    splitFile cfg (ls.flatten ++ frag)
      = writeCur cfg (ls.foldl (stepLine cfg) (createNewPart cfg initState)) frag :=
  scan_lines_frag cfg ls frag _ hwf hf

/-- Changing only the buffer size leaves the per-line step unchanged (the
buffer size is only consulted by the chunking in `scan`). -/
lemma stepLine_bufIrrel (cfg : Config) (m : Nat) (s : SState) (l : List Byte) :
    stepLine { cfg with bufSize := m } s l = stepLine cfg s l := rfl

lemma foldl_stepLine_bufIrrel (cfg : Config) (m : Nat) :
    ∀ (t : List (List Byte)) (s : SState),
      t.foldl (stepLine { cfg with bufSize := m }) s = t.foldl (stepLine cfg) s := by
  intro t
  induction t with
  | nil => intro s; rfl
  | cons a t ih =>
    intro s
    rw [List.foldl_cons, List.foldl_cons, stepLine_bufIrrel, ih]

/-- C5 amended: the run is independent of the buffer-size constant whenever
every complete line fits both buffers (the final newline-free fragment may
be arbitrarily long). -/
theorem C5_buffer_size_irrelevant (cfg : Config) (m : Nat) (ls : List (List Byte))
    (frag : List Byte)
    (hwf1 : ∀ l ∈ ls, WFLine (max cfg.bufSize 16) l)
    (hwf2 : ∀ l ∈ ls, WFLine (max m 16) l)
    (hfrag : frag.count 10 = 0) :
    splitFile { cfg with bufSize := m } (ls.flatten ++ frag)
      = splitFile cfg (ls.flatten ++ frag) := by
  rw [splitFile_lines_frag { cfg with bufSize := m } ls frag hwf2 hfrag]
  rw [splitFile_lines_frag cfg ls frag hwf1 hfrag]
  rw [foldl_stepLine_bufIrrel]
  rfl

/-- Witness for C5 at a concrete line list and fragment. -/
theorem C5_buffer_size_irrelevant_witness :
    (∀ l ∈ [[97, 10]], WFLine (max cfgDefault.bufSize 16) l) ∧
    (∀ l ∈ [[97, 10]], WFLine (max 32 16) l) ∧
    ([98] : List Byte).count 10 = 0 ∧
    splitFile { cfgDefault with bufSize := 32 } ([[97, 10]].flatten ++ [98])
      = splitFile cfgDefault ([[97, 10]].flatten ++ [98]) :=
  ⟨by decide, by decide, by decide,
   C5_buffer_size_irrelevant cfgDefault 32 [[97, 10]] [98] (by decide) (by decide)
     (by decide)⟩

/-- C5 counterexample: with `-lines 1`, a 19-byte line is handled observably
differently by a 16-byte buffer (its first 16 bytes go to the old part as an
uncounted `ErrBufferFull` chunk) than by a 64-byte buffer: the produced part
contents differ. -/
theorem C5_counterexample :
    outParts cfgBuf16 inpLong ≠ outParts { cfgBuf16 with bufSize := 64 } inpLong := by
  decide

/-- With lines and pattern off and a positive byte threshold, the rollover
condition is exactly the byte comparison of the source. -/
lemma rollCond_size (cfg : Config) (hL : cfg.maxLines = 0) (hP : cfg.pattern = none)
    (hM : 0 < cfg.maxBytes) (s : SState) (bs : List Byte) :
    rollCond cfg s bs = decide (cfg.maxBytes < s.written + bs.length) := by
  simp [rollCond, hL, hP, hM]

lemma stepLine_sizeInv (cfg : Config) (LS : List (List Byte))
    (hM : 0 < cfg.maxBytes) (hL : cfg.maxLines = 0) (hP : cfg.pattern = none)
    (hD : cfg.dryRun = false) (s : SState) (l : List Byte) (hmem : l ∈ LS)
    (h : SizeInv cfg LS s) : SizeInv cfg LS (stepLine cfg s l) := by
  obtain ⟨c, hc, h1, h2, h3⟩ := h
  unfold stepLine
  rw [rollCond_size cfg hL hP hM]
  by_cases hover : cfg.maxBytes < s.written + l.length
  · rw [decide_eq_true hover]
    simp only [if_true]
    refine ⟨l, ?_, ?_, Or.inr hmem, ?_⟩
    · simp [writeCur, createNewPart, hD]
    · simp [writeCur, createNewPart, hD]
    · intro p hp
      simp [writeCur, createNewPart, hD, hc] at hp
      rcases hp with hp | hp
      · exact h3 p hp
      · subst hp
        exact h2
  · rw [decide_eq_false hover]
    simp only [Bool.false_eq_true, if_false]
    refine ⟨c ++ l, ?_, ?_, ?_, ?_⟩
    · simp [writeCur, hD, hc]
    · simp only [writeCur, hD, Bool.false_eq_true, if_false, List.length_append]
      omega
    · left
      simp only [List.length_append]
      omega
    · intro p hp
      simp [writeCur, hD] at hp
      exact h3 p hp

lemma foldl_sizeInv (cfg : Config) (LS : List (List Byte))
    (hM : 0 < cfg.maxBytes) (hL : cfg.maxLines = 0) (hP : cfg.pattern = none)
    (hD : cfg.dryRun = false) :
    ∀ (t : List (List Byte)) (s : SState), (∀ l ∈ t, l ∈ LS) → SizeInv cfg LS s →
      SizeInv cfg LS (t.foldl (stepLine cfg) s) := by
  intro t
  induction t with
  | nil =>
    intro s _ h
    exact h
  | cons a t ih =>
    intro s hsub h
    rw [List.foldl_cons]
    exact ih _ (fun l hl => hsub l (by simp [hl]))
      (stepLine_sizeInv cfg LS hM hL hP hD s a (hsub a (by simp)) h)

/-- C7 amended: with a positive byte threshold as the only trigger and a
newline-terminated input whose lines fit the buffer, every part either stays
within the threshold or consists of exactly one input line (which is then
necessarily longer than the threshold and was written whole). -/
theorem C7_size_rollover (cfg : Config) (ls : List (List Byte))
    (hM : 0 < cfg.maxBytes) (hL : cfg.maxLines = 0) (hP : cfg.pattern = none)
    (hD : cfg.dryRun = false)
    (hwf : ∀ l ∈ ls, WFLine (max cfg.bufSize 16) l) :
    ∀ p ∈ outParts cfg ls.flatten, p.length ≤ cfg.maxBytes ∨ p ∈ ls := by
  have hred : splitFile cfg ls.flatten
      = ls.foldl (stepLine cfg) (createNewPart cfg initState) := by
    have h := splitFile_lines_frag cfg ls [] hwf rfl
    rw [List.append_nil] at h
    rw [h, writeCur_nil]
  have hinit : SizeInv cfg ls (createNewPart cfg initState) := by
    refine ⟨[], ?_, ?_, Or.inl (Nat.zero_le _), ?_⟩ <;> simp [createNewPart, initState, hD]
  have hinv := foldl_sizeInv cfg ls hM hL hP hD ls (createNewPart cfg initState)
      (fun l hl => hl) hinit
  obtain ⟨c, hc, _h1, h2, h3⟩ := hinv
  intro p hp
  have hout : outParts cfg ls.flatten
      = (splitFile cfg ls.flatten).closed ++ ((splitFile cfg ls.flatten).cur).toList := rfl
  rw [hout, hred, hc] at hp
  simp only [Option.toList_some] at hp
  rcases List.mem_append.mp hp with hp | hp
  · exact h3 p hp
  · have hpc : p = c := by simpa using hp
    subst hpc
    exact h2

/-- Witness for C7: a 2-byte and a 4-byte line against a 5-byte threshold. -/
theorem C7_size_rollover_witness :
    (0 < cfgSize5.maxBytes ∧ cfgSize5.maxLines = 0 ∧ cfgSize5.pattern = none ∧
      cfgSize5.dryRun = false ∧
      (∀ l ∈ [[97, 10], [98, 99, 100, 10]], WFLine (max cfgSize5.bufSize 16) l)) ∧
    ∀ p ∈ outParts cfgSize5 ([[97, 10], [98, 99, 100, 10]].flatten),
      p.length ≤ cfgSize5.maxBytes ∨ p ∈ [[97, 10], [98, 99, 100, 10]] :=
  ⟨⟨by decide, rfl, rfl, rfl, by decide⟩,
   C7_size_rollover cfgSize5 [[97, 10], [98, 99, 100, 10]] (by decide) rfl rfl rfl
     (by decide)⟩

/-- C7 counterexample to the claim as stated: `"abc\nxy"` with a 5-byte
threshold.  The final fragment `"xy"` is appended to the open part with no
threshold check, so the single part holds 6 bytes although no single line
exceeds 5 bytes. -/
theorem C7_counterexample :
    cfgSize5.maxBytes = 5 ∧
    outParts cfgSize5 inpSize = [[97, 98, 99, 10, 120, 121]] ∧
    (∃ p ∈ outParts cfgSize5 inpSize, 5 < p.length) ∧
    ([97, 98, 99, 10] : List Byte).length ≤ 5 ∧ ([120, 121] : List Byte).length ≤ 5 :=
  ⟨rfl, by decide, ⟨[97, 98, 99, 10, 120, 121], by decide, by decide⟩, by decide,
   by decide⟩

/-- A state whose open part is `l ++ t` has a part begun by `l`. -/
lemma beginsPart_of_cur (s : SState) (l c : List Byte) (hc : s.cur = some c)
    (ht : ∃ t, c = l ++ t) : BeginsPart s l := by
  obtain ⟨t, rfl⟩ := ht
  exact ⟨l ++ t, List.mem_append.mpr (Or.inr (by simp [hc])), t, rfl⟩

lemma beginsPart_writeCur (cfg : Config) (hD : cfg.dryRun = false) (s : SState)
    (bs l : List Byte) (h : BeginsPart s l) : BeginsPart (writeCur cfg s bs) l := by
  obtain ⟨q, hq, t, rfl⟩ := h
  rcases List.mem_append.mp hq with hq | hq
  · refine ⟨l ++ t, List.mem_append.mpr (Or.inl ?_), t, rfl⟩
    simpa [writeCur, hD] using hq
  · have hc : s.cur = some (l ++ t) := by
      cases hcur : s.cur with
      | none =>
        rw [hcur] at hq
        simp at hq
      | some d =>
        rw [hcur] at hq
        simp at hq
        simp [hq]
    refine beginsPart_of_cur _ l (l ++ t ++ bs) ?_ ⟨t ++ bs, by simp⟩
    simp [writeCur, hD, hc]

lemma beginsPart_createNewPart (cfg : Config) (hD : cfg.dryRun = false) (s : SState)
    (l : List Byte) (h : BeginsPart s l) : BeginsPart (createNewPart cfg s) l := by
  obtain ⟨q, hq, t, rfl⟩ := h
  refine ⟨l ++ t, ?_, t, rfl⟩
  have hcl : (createNewPart cfg s).closed = s.closed ++ s.cur.toList := by
    simp [createNewPart, hD]
  rw [List.mem_append]
  left
  rw [hcl]
  exact hq

lemma beginsPart_stepLine (cfg : Config) (hD : cfg.dryRun = false) (s : SState)
    (bs l : List Byte) (h : BeginsPart s l) : BeginsPart (stepLine cfg s bs) l := by
  unfold stepLine
  by_cases hr : rollCond cfg s bs = true
  · rw [hr]
    simp only [if_true]
    exact beginsPart_writeCur cfg hD _ bs l (beginsPart_createNewPart cfg hD s l h)
  · rw [Bool.not_eq_true] at hr
    rw [hr]
    simp only [Bool.false_eq_true, if_false]
    exact beginsPart_writeCur cfg hD s bs l h

/-- A line that matches the configured pattern triggers a rollover and is
written first into the fresh part, so it begins that part. -/
lemma stepLine_match_beginsPart (cfg : Config) (pm : List Byte → Bool)
    (hP : cfg.pattern = some pm) (hD : cfg.dryRun = false) (s : SState)
    (l : List Byte) (hm : pm l = true) : BeginsPart (stepLine cfg s l) l := by
  have hroll : rollCond cfg s l = true := by
    simp [rollCond, hP, hm]
  have hcur : (stepLine cfg s l).cur = some l := by
    unfold stepLine
    rw [hroll]
    simp [writeCur, createNewPart, hD]
  exact beginsPart_of_cur _ l l hcur ⟨[], by simp⟩

lemma foldl_beginsPart_mono (cfg : Config) (hD : cfg.dryRun = false) :
    ∀ (t : List (List Byte)) (s : SState) (l : List Byte),
      BeginsPart s l → BeginsPart (t.foldl (stepLine cfg) s) l := by
  intro t
  induction t with
  | nil =>
    intro s l h
    exact h
  | cons a t ih =>
    intro s l h
    rw [List.foldl_cons]
    exact ih _ l (beginsPart_stepLine cfg hD s a l h)

lemma foldl_beginsPart_match (cfg : Config) (pm : List Byte → Bool)
    (hP : cfg.pattern = some pm) (hD : cfg.dryRun = false) :
    ∀ (t : List (List Byte)) (s : SState) (l : List Byte),
      l ∈ t → pm l = true → BeginsPart (t.foldl (stepLine cfg) s) l := by
  intro t
  induction t with
  | nil =>
    intro s l h
    simp at h
  | cons a t ih =>
    intro s l hmem hm
    rw [List.foldl_cons]
    rcases List.mem_cons.mp hmem with rfl | hmem
    · exact foldl_beginsPart_mono cfg hD t _ l (stepLine_match_beginsPart cfg pm hP hD s l hm)
    · exact ih _ l hmem hm

/-- C3 amended: every line matching the pattern — including the very first
line of the input — begins some output part (it is a prefix of that part's
content, and since it carries its own terminating newline it is that part's
first line). -/
theorem C3_pattern_starts_part (cfg : Config) (pm : List Byte → Bool)
    (ls : List (List Byte)) (frag : List Byte)
    (hP : cfg.pattern = some pm) (hD : cfg.dryRun = false)
    (hwf : ∀ l ∈ ls, WFLine (max cfg.bufSize 16) l) (hfrag : frag.count 10 = 0) :
    ∀ l ∈ ls, pm l = true →
      ∃ q ∈ outParts cfg (ls.flatten ++ frag), ∃ t, q = l ++ t := by
  intro l hmem hm
  have hred := splitFile_lines_frag cfg ls frag hwf hfrag
  have hb : BeginsPart (splitFile cfg (ls.flatten ++ frag)) l := by
    rw [hred]
    exact beginsPart_writeCur cfg hD _ frag l
      (foldl_beginsPart_match cfg pm hP hD ls _ l hmem hm)
  obtain ⟨q, hq, t, rfl⟩ := hb
  exact ⟨l ++ t, hq, t, rfl⟩

/-- Witness for C3: the second line `"E\n"` of `"a\nE\n"` matches and begins
part 2. -/
theorem C3_pattern_starts_part_witness :
    (cfgPatE.pattern = some startsWithE ∧ cfgPatE.dryRun = false ∧
      (∀ l ∈ [[97, 10], [69, 10]], WFLine (max cfgPatE.bufSize 16) l) ∧
      [69, 10] ∈ [[97, 10], [69, 10]] ∧ startsWithE [69, 10] = true) ∧
    ∃ q ∈ outParts cfgPatE ([[97, 10], [69, 10]].flatten ++ []), ∃ t, q = [69, 10] ++ t :=
  ⟨⟨rfl, rfl, by decide, by decide, by decide⟩,
   C3_pattern_starts_part cfgPatE startsWithE [[97, 10], [69, 10]] [] rfl rfl
     (by decide) (by decide) [69, 10] (by decide) (by decide)⟩

/-- C3 counterexample to the claim's first-line exception: when the very
first input line matches the pattern, the code still rolls over before
writing it, so part 1 stays empty and the first line opens part 2 — it is
not "written to part 1 whether or not it matches". -/
theorem C3_counterexample :
    outParts cfgPatE inpPatE = [[], [69, 10, 97, 10]] ∧
    ((outParts cfgPatE inpPatE).headD [99]).take 2 ≠ [69, 10] :=
  ⟨by decide, by decide⟩

/-- Bookkeeping for one `stepLine`: the line's bytes land at the end of the
accumulated part contents, whatever the rollover decision was. -/
lemma stepLine_concat (cfg : Config) (hD : cfg.dryRun = false) (s : SState)
    (c bs : List Byte) (hc : s.cur = some c) :
    ∃ c', (stepLine cfg s bs).cur = some c' ∧
      (stepLine cfg s bs).closed.flatten ++ c' = s.closed.flatten ++ c ++ bs := by
  unfold stepLine
  by_cases hr : rollCond cfg s bs = true
  · rw [hr]
    simp only [if_true]
    refine ⟨bs, ?_, ?_⟩
    · simp [writeCur, createNewPart, hD]
    · simp [writeCur, createNewPart, hD, hc, List.flatten_append]
  · rw [Bool.not_eq_true] at hr
    rw [hr]
    simp only [Bool.false_eq_true, if_false]
    refine ⟨c ++ bs, ?_, ?_⟩
    · simp [writeCur, hD, hc]
    · simp [writeCur, hD, List.append_assoc]

/-- Bookkeeping for one raw write. -/
lemma writeCur_concat (cfg : Config) (hD : cfg.dryRun = false) (s : SState)
    (c bs : List Byte) (hc : s.cur = some c) :
    (writeCur cfg s bs).cur = some (c ++ bs) ∧ (writeCur cfg s bs).closed = s.closed := by
  constructor <;> simp [writeCur, hD, hc]

/-- Every byte the v1 loop reads ends up appended, in order, to the part
contents: the accumulated content after the loop is the content before it
plus the pending bytes plus the input. -/
lemma scan_concat (cfg : Config) (hD : cfg.dryRun = false) :
    ∀ (input pending : List Byte) (s : SState) (c : List Byte), s.cur = some c →
      ∃ c', (scan cfg s pending input).cur = some c' ∧
        (scan cfg s pending input).closed.flatten ++ c'
          = s.closed.flatten ++ c ++ pending ++ input := by
  intro input
  induction input with
  | nil =>
    intro pending s c hc
    rw [scan_nil]
    by_cases hp : pending.isEmpty
    · rw [if_pos hp]
      have hpe : pending = [] := by simpa using hp
      subst hpe
      exact ⟨c, hc, by simp⟩
    · rw [if_neg hp]
      obtain ⟨h1, h2⟩ := writeCur_concat cfg hD s c pending hc
      exact ⟨c ++ pending, h1, by rw [h2]; simp [List.append_assoc]⟩
  | cons b rest ih =>
    intro pending s c hc
    rw [scan_cons]
    by_cases hb : b = 10
    · rw [if_pos hb]
      subst hb
      obtain ⟨c1, hc1, hsum1⟩ := stepLine_concat cfg hD s c (pending ++ [10]) hc
      obtain ⟨c', hc', hsum⟩ := ih [] _ c1 hc1
      refine ⟨c', hc', ?_⟩
      rw [hsum]
      simp only [List.append_nil]
      rw [hsum1]
      simp [List.append_assoc]
    · rw [if_neg hb]
      by_cases hlen : (pending ++ [b]).length = max cfg.bufSize 16
      · rw [if_pos hlen]
        obtain ⟨h1, h2⟩ := writeCur_concat cfg hD s c (pending ++ [b]) hc
        obtain ⟨c', hc', hsum⟩ := ih [] _ _ h1
        refine ⟨c', hc', ?_⟩
        rw [hsum]
        simp only [List.append_nil]
        rw [h2]
        simp [List.append_assoc]
      · rw [if_neg hlen]
        obtain ⟨c', hc', hsum⟩ := ih (pending ++ [b]) s c hc
        refine ⟨c', hc', ?_⟩
        rw [hsum]
        simp [List.append_assoc]

/-- Development check backing C1: the v1 splitter loses no bytes — in
non-dry-run mode the output parts concatenate to exactly the input, for
every input (chunked long lines and final fragments included). -/
theorem v1_concat_exact (cfg : Config) (input : List Byte) (hD : cfg.dryRun = false) :
    (outParts cfg input).flatten = input := by
  have hc0 : (createNewPart cfg initState).cur = some [] := by
    simp [createNewPart, initState, hD]
  obtain ⟨c', hc', hsum⟩ := scan_concat cfg hD input [] (createNewPart cfg initState) [] hc0
  have hcl : (createNewPart cfg initState).closed = [] := by
    simp [createNewPart, initState, hD]
  rw [hcl] at hsum
  simp only [List.flatten_nil, List.nil_append, List.append_nil] at hsum
  have hout : outParts cfg input
      = (splitFile cfg input).closed ++ ((splitFile cfg input).cur).toList := rfl
  rw [hout]
  have hsf : splitFile cfg input = scan cfg (createNewPart cfg initState) [] input := rfl
  rw [hsf, hc']
  rw [List.flatten_append]
  simpa using hsum

lemma createNewPart_indexInv (cfg : Config) (hD : cfg.dryRun = false) (s : SState)
    (h : IndexInv cfg s) : IndexInv cfg (createNewPart cfg s) := by
  obtain ⟨h1, h2⟩ := h
  constructor
  · simp [createNewPart, hD, h1]
  · have : (createNewPart cfg s).createdFiles
        = s.createdFiles ++ [mkFilename cfg s.calls s.part] := by
      simp [createNewPart, hD]
    rw [this, h2, h1]
    have hcalls : (createNewPart cfg s).calls = s.calls + 1 := by
      simp [createNewPart, hD]
    rw [hcalls, List.range_succ, List.map_append]
    rfl

lemma stepLine_indexInv (cfg : Config) (hD : cfg.dryRun = false) (s : SState)
    (bs : List Byte) (h : IndexInv cfg s) : IndexInv cfg (stepLine cfg s bs) := by
  have hw : ∀ s' : SState, IndexInv cfg s' → IndexInv cfg (writeCur cfg s' bs) := by
    intro s' h'
    obtain ⟨h1, h2⟩ := h'
    constructor <;> simp [writeCur, hD, h1, h2]
  unfold stepLine
  by_cases hr : rollCond cfg s bs = true
  · rw [hr]
    simp only [if_true]
    exact hw _ (createNewPart_indexInv cfg hD s h)
  · rw [Bool.not_eq_true] at hr
    rw [hr]
    simp only [Bool.false_eq_true, if_false]
    exact hw _ h

lemma scan_indexInv (cfg : Config) (hD : cfg.dryRun = false) :
    ∀ (input pending : List Byte) (s : SState),
      IndexInv cfg s → IndexInv cfg (scan cfg s pending input) := by
  intro input
  induction input with
  | nil =>
    intro pending s h
    rw [scan_nil]
    split
    · exact h
    · obtain ⟨h1, h2⟩ := h
      constructor <;> simp [writeCur, hD, h1, h2]
  | cons b rest ih =>
    intro pending s h
    rw [scan_cons]
    by_cases hb : b = 10
    · rw [if_pos hb]
      exact ih [] _ (stepLine_indexInv cfg hD s _ h)
    · rw [if_neg hb]
      by_cases hlen : (pending ++ [b]).length = max cfg.bufSize 16
      · rw [if_pos hlen]
        refine ih [] _ ?_
        obtain ⟨h1, h2⟩ := h
        constructor <;> simp [writeCur, hD, h1, h2]
      · rw [if_neg hlen]
        exact ih _ s h

/-- Development check backing C9's non-dry-run half: in a real run the
created filenames are exactly those of part indices 1, 2, 3, … with no gaps
or repeats, and the stored next index is always one past the number of
creations. -/
theorem v1_created_file_indices (cfg : Config) (input : List Byte)
    (hD : cfg.dryRun = false) :
    (splitFile cfg input).createdFiles
      = (List.range (splitFile cfg input).calls).map (fun i => mkFilename cfg i (i + 1)) ∧
    (splitFile cfg input).part = (splitFile cfg input).calls + 1 := by
  have h0 : IndexInv cfg initState := by
    constructor <;> rfl
  have h := scan_indexInv cfg hD input [] (createNewPart cfg initState)
    (createNewPart_indexInv cfg hD initState h0)
  exact ⟨h.2, h.1⟩

/-- In dry-run mode the loop touches neither the filesystem record nor any
part contents, whatever the input and the rest of the configuration. -/
lemma scan_dry (cfg : Config) (hDT : cfg.dryRun = true) :
    ∀ (input pending : List Byte) (s : SState),
      (scan cfg s pending input).createdFiles = s.createdFiles ∧
      (scan cfg s pending input).closed = s.closed ∧
      (scan cfg s pending input).cur = s.cur := by
  intro input
  induction input with
  | nil =>
    intro pending s
    rw [scan_nil]
    split
    · exact ⟨rfl, rfl, rfl⟩
    · refine ⟨?_, ?_, ?_⟩ <;> simp [writeCur, hDT]
  | cons b rest ih =>
    intro pending s
    rw [scan_cons]
    have hstep : ∀ bs, (stepLine cfg s bs).createdFiles = s.createdFiles ∧
        (stepLine cfg s bs).closed = s.closed ∧ (stepLine cfg s bs).cur = s.cur := by
      intro bs
      unfold stepLine
      by_cases hr : rollCond cfg s bs = true
      · rw [hr]
        simp only [if_true]
        refine ⟨?_, ?_, ?_⟩ <;> simp [writeCur, createNewPart, hDT]
      · rw [Bool.not_eq_true] at hr
        rw [hr]
        simp only [Bool.false_eq_true, if_false]
        refine ⟨?_, ?_, ?_⟩ <;> simp [writeCur, hDT]
    by_cases hb : b = 10
    · rw [if_pos hb]
      obtain ⟨i1, i2, i3⟩ := ih [] (stepLine cfg s (pending ++ [b]))
      obtain ⟨j1, j2, j3⟩ := hstep (pending ++ [b])
      exact ⟨by rw [i1, j1], by rw [i2, j2], by rw [i3, j3]⟩
    · rw [if_neg hb]
      by_cases hlen : (pending ++ [b]).length = max cfg.bufSize 16
      · rw [if_pos hlen]
        have hw : writeCur cfg s (pending ++ [b]) = s := by simp [writeCur, hDT]
        rw [hw]
        exact ih [] s
      · rw [if_neg hlen]
        exact ih _ s

/-- Development check backing C2's true half: a dry run creates no files and
produces no parts, for every configuration and input. -/
theorem v1_dry_run_creates_nothing (cfg : Config) (input : List Byte)
    (hDT : cfg.dryRun = true) :
    (splitFile cfg input).createdFiles = [] ∧ outParts cfg input = [] := by
  obtain ⟨h1, h2, h3⟩ := scan_dry cfg hDT input [] (createNewPart cfg initState)
  have hc : (createNewPart cfg initState).createdFiles = [] := by
    simp [createNewPart, initState, hDT]
  have hcl : (createNewPart cfg initState).closed = [] := by
    simp [createNewPart, initState, hDT]
  have hcu : (createNewPart cfg initState).cur = none := by
    simp [createNewPart, initState, hDT]
  have hsf : splitFile cfg input = scan cfg (createNewPart cfg initState) [] input := rfl
  refine ⟨by rw [hsf, h1, hc], ?_⟩
  have hout : outParts cfg input
      = (splitFile cfg input).closed ++ ((splitFile cfg input).cur).toList := rfl
  rw [hout, hsf, h2, h3, hcl, hcu]
  rfl
